import Mathlib

/-!
Verification of the CF-X router gateway (services/cfx-router) against its
natural-language specification.

Python strings are embedded as `List Char` (Python indexes and slices by code
point), Python ints as `Int`, dictionaries holding per-user state as total
functions with the `defaultdict(int)` default, and fallible store calls as
explicit outcome values.  Each definition is a shallow embedding of the
correspondingly named function of the source tree.
-/

/-- Conversion from a Lean string literal to the embedded Python string type. -/
def pstr (s : String) : List Char := s.data

/-- Characters removed by Python `str.strip()` (the ASCII whitespace subset;
the source only ever strips ASCII header and JSON payload text). -/
def isPySpace (c : Char) : Bool :=
  c == ' ' || c == '\t' || c == '\n' || c == '\r' || c == Char.ofNat 11 || c == Char.ofNat 12

/-- Python `str.lstrip()`. -/
def pyLStrip (l : List Char) : List Char := l.dropWhile isPySpace

/-- Python `str.rstrip()`. -/
def pyRStrip (l : List Char) : List Char := (l.reverse.dropWhile isPySpace).reverse

/-- Python `str.strip()`. -/
def pyStrip (l : List Char) : List Char := pyRStrip (pyLStrip l)

/-! ## cfx/security.py -/

/-- Embeds `SecurityManager.extract_bearer_token` (cfx/security.py, lines
82-106): reject a falsy header, require the case-sensitive `Bearer ` prefix,
strip the rest, reject an empty token. -/
def extract_bearer_token (header : Option (List Char)) : Option (List Char) :=
  match header with
  | none => none
  | some s =>
    if s = [] then none
    else if List.isPrefixOf (pstr "Bearer ") s then
      let token := pyStrip (s.drop 7)
      if token = [] then none else some token
    else none

/-! ## cfx/concurrency.py -/

/-- The `ConcurrencyManager._active_streams` map, a `defaultdict(int)` from
user id to active stream count; absent users read as 0. -/
def ConcurrencyState := Nat → Int

/-- Write one user's counter, leaving the rest of the map unchanged. -/
def updateCount (s : ConcurrencyState) (u : Nat) (v : Int) : ConcurrencyState :=
  fun w => if w = u then v else s w

/-- Embeds `ConcurrencyManager.acquire_stream_slot` (cfx/concurrency.py, lines
29-48).  The cap argument stands for the value `get_user_cap` resolved for this
user; the whole read-check-increment runs under the manager's mutex, so it is
one atomic step here. -/
def acquire_stream_slot (s : ConcurrencyState) (u : Nat) (cap : Int) :
    Bool × ConcurrencyState :=
  if s u ≥ cap then (false, s)
  else (true, updateCount s u (s u + 1))

/-- Embeds `ConcurrencyManager.release_stream_slot` (cfx/concurrency.py, lines
50-63): decrement when positive, otherwise write 0. -/
def release_stream_slot (s : ConcurrencyState) (u : Nat) : ConcurrencyState :=
  if s u > 0 then updateCount s u (s u - 1)
  else updateCount s u 0

/-- One ledger operation: an acquire (with the cap resolved for that call) or a
release. -/
inductive ConcOp where
  | acquire (u : Nat) (cap : Int)
  | release (u : Nat)

/-- Apply one operation to the ledger, discarding the acquire result. -/
def applyConcOp (s : ConcurrencyState) : ConcOp → ConcurrencyState
  | .acquire u cap => (acquire_stream_slot s u cap).2
  | .release u => release_stream_slot s u

/-- Run a sequence of ledger operations. -/
def runConcOps (s : ConcurrencyState) : List ConcOp → ConcurrencyState
  | [] => s
  | op :: rest => runConcOps (applyConcOp s op) rest

/-- The ledger at process start: every count is 0. -/
def initialStreams : ConcurrencyState := fun _ => 0

/-- Embeds the cap table of `ConcurrencyManager.get_user_cap` (cfx/concurrency.py,
lines 94-100): plan caps starter=1, pro=2, agency=5, else the process default. -/
def plan_caps (p : List Char) (defaultCap : Int) : Int :=
  if p = pstr "starter" then 1
  else if p = pstr "pro" then 2
  else if p = pstr "agency" then 5
  else defaultCap

/-! ## cfx/rate_limit.py -/

/-- The row returned by the `users` select in `RateLimitManager.get_daily_limit`;
both columns are selected, so each is present but possibly null (`none`). -/
structure UserLimitsRow where
  daily_limit : Option Int
  plan : Option (List Char)
deriving DecidableEq

/-- Python truthiness of `user_data.get("daily_limit")`: a present, nonzero
integer. -/
def pyTruthyOptInt : Option Int → Bool
  | some v => v != 0
  | none => false

/-- The `plan_limits` dict of `RateLimitManager.get_daily_limit` (cfx/rate_limit.py,
lines 351-355). -/
def plan_limits (p : List Char) : Option Int :=
  if p = pstr "starter" then some 1000
  else if p = pstr "pro" then some 4000
  else if p = pstr "agency" then some 15000
  else none

/-- Embeds `RateLimitManager.get_daily_limit` (cfx/rate_limit.py, lines
321-365).  `row = none` covers both an empty select result and a store error,
which fall through to the process default.  The `user_data.get("plan", "starter")`
dict default can only fire when the `plan` key is missing; the select always
returns the column, so a null plan reads as `none` here, misses the
`plan_limits` dict, and yields the default. -/
def get_daily_limit (row : Option UserLimitsRow) (defaultDailyLimit : Int) : Int :=
  match row with
  | some u =>
    if pyTruthyOptInt u.daily_limit then u.daily_limit.getD 0
    else
      match u.plan with
      | some p => (plan_limits p).getD defaultDailyLimit
      | none => defaultDailyLimit
  | none => defaultDailyLimit

/-- Result record of a quota check (`RateLimitResult`, cfx/rate_limit.py, lines
20-33). -/
structure RateLimitResult where
  allowed : Bool
  remaining : Int
  reset_timestamp : Int
  limit : Int
deriving DecidableEq

/-- Epoch seconds of 00:00 UTC of the day after the given epoch-day bucket,
as computed at cfx/rate_limit.py lines 93-100. -/
def reset_timestamp_of_day (dayUtc : Int) : Int := (dayUtc + 1) * 86400

/-- Outcome of the backend interaction inside
`SupabaseRateLimiter.check_and_increment`: the RPC path returned a record, the
upsert fallback produced a post-increment count, the database raised
(`db_error`), or the client was unconfigured (`ValueError`). -/
inductive BackendOutcome where
  | rpcResult (request_count : Int) (allowed : Bool)
  | upsertCount (request_count : Int)
  | dbError
  | notConfigured
deriving DecidableEq

/-- Embeds `SupabaseRateLimiter.check_and_increment` (cfx/rate_limit.py, lines
74-262): the RPC path trusts the returned `allowed` flag and recomputes
`remaining`; the upsert fallback computes `allowed = request_count <= limit`
and `remaining = max(0, limit - request_count)`; both error paths fail open
with `allowed = True` and `remaining = limit - 1`. -/
def check_and_increment (outcome : BackendOutcome) (dayUtc limit : Int) :
    RateLimitResult :=
  match outcome with
  | .rpcResult c a => ⟨a, max 0 (limit - c), reset_timestamp_of_day dayUtc, limit⟩
  | .upsertCount c =>
      ⟨decide (c ≤ limit), max 0 (limit - c), reset_timestamp_of_day dayUtc, limit⟩
  | .dbError => ⟨true, limit - 1, reset_timestamp_of_day dayUtc, limit⟩
  | .notConfigured => ⟨true, limit - 1, reset_timestamp_of_day dayUtc, limit⟩

/-- Modelled from the spec: the Postgres RPC `increment_usage_counter` is not
under src/ (only its caller is); per the spec's quota algorithm it returns the
post-increment count together with `allowed = post_count <= limit`. -/
def increment_usage_counter_rpc (postCount limit : Int) : BackendOutcome :=
  .rpcResult postCount (decide (postCount ≤ limit))

/-- Stated from the claim's words, for comparison with `get_daily_limit`: the
direct per-user override applies whenever it is set, else the plan-derived
limit, else the process default. -/
def claim_resolved_limit (row : Option UserLimitsRow) (defaultDailyLimit : Int) : Int :=
  match row with
  | some u =>
    match u.daily_limit with
    | some dl => dl
    | none =>
      match u.plan with
      | some p => (plan_limits p).getD defaultDailyLimit
      | none => defaultDailyLimit
  | none => defaultDailyLimit

/-- Plan-or-default fallback used when the direct override does not apply. -/
def plan_fallback_limit (plan : Option (List Char)) (defaultDailyLimit : Int) : Int :=
  match plan with
  | some p => (plan_limits p).getD defaultDailyLimit
  | none => defaultDailyLimit

/-- Stated from the amended claim's words: the direct override applies only
when set to a nonzero value. -/
def amended_resolved_limit (row : Option UserLimitsRow) (defaultDailyLimit : Int) : Int :=
  match row with
  | some u =>
    match u.daily_limit with
    | some dl => if dl ≠ 0 then dl else plan_fallback_limit u.plan defaultDailyLimit
    | none => plan_fallback_limit u.plan defaultDailyLimit
  | none => defaultDailyLimit

/-! ## cfx/litellm_client.py: the circuit breaker -/

/-- The `CircuitState` enum (cfx/litellm_client.py, lines 19-23). -/
inductive CircuitState where
  | closed
  | open_
  | half_open
deriving DecidableEq

/-- The `CircuitBreaker` object state (cfx/litellm_client.py, lines 32-49);
wall-clock instants (`datetime.now()`) are modelled as integer seconds. -/
structure CircuitBreaker where
  failure_threshold : Nat
  recovery_timeout : Int
  state : CircuitState
  failure_count : Nat
  success_count : Nat
  last_failure_time : Option Int
deriving DecidableEq

/-- The `CircuitBreaker.__init__` state; `LiteLLMClient` constructs it with
threshold 5 and recovery timeout 60. -/
def mkCircuitBreaker (threshold : Nat) (recovery : Int) : CircuitBreaker :=
  ⟨threshold, recovery, .closed, 0, 0, none⟩

/-- Embeds `CircuitBreaker.record_success` (cfx/litellm_client.py, lines
51-60). -/
def record_success (cb : CircuitBreaker) : CircuitBreaker :=
  match cb.state with
  | .half_open =>
    let sc := cb.success_count + 1
    if sc ≥ 2 then { cb with state := .closed, failure_count := 0, success_count := 0 }
    else { cb with success_count := sc }
  | .closed => { cb with failure_count := 0 }
  | .open_ => cb

/-- Embeds `CircuitBreaker.record_failure` (cfx/litellm_client.py, lines
62-68), taking the current instant for `datetime.now()`. -/
def record_failure (cb : CircuitBreaker) (now : Int) : CircuitBreaker :=
  let cb2 := { cb with failure_count := cb.failure_count + 1, last_failure_time := some now }
  if cb2.failure_count ≥ cb2.failure_threshold then { cb2 with state := .open_ }
  else cb2

/-- Embeds `CircuitBreaker.is_open` (cfx/litellm_client.py, lines 70-82),
returning the answer together with the (lazily transitioned) new state. -/
def is_open (cb : CircuitBreaker) (now : Int) : Bool × CircuitBreaker :=
  match cb.state with
  | .open_ =>
    match cb.last_failure_time with
    | some t =>
      if now - t ≥ cb.recovery_timeout then
        (false, { cb with state := .half_open, success_count := 0 })
      else (true, cb)
    | none => (true, cb)
  | _ => (false, cb)

/-- One interaction with the breaker: a recorded success, a recorded failure
at some instant, or an `is_open` query at some instant. -/
inductive CBOp where
  | success
  | failure (now : Int)
  | query (now : Int)

/-- Apply one breaker interaction. -/
def cbStep (cb : CircuitBreaker) : CBOp → CircuitBreaker
  | .success => record_success cb
  | .failure t => record_failure cb t
  | .query t => (is_open cb t).2

/-- Run a sequence of breaker interactions. -/
def cbRun (cb : CircuitBreaker) : List CBOp → CircuitBreaker
  | [] => cb
  | op :: rest => cbRun (cbStep cb op) rest

/-! ## cfx/openai_compat.py: SSE framing and the stdlib JSON codec

The stdlib `json` module is external to the repository; it is modelled here on
the JSON fragment the gateway traffics in: null, booleans, integer numbers,
strings, arrays and objects, with the common string escapes.  `json.dumps`
uses the default separators, so elements are joined by a comma and a space and
keys are followed by a colon and a space. -/

/-- JSON values (integer numbers; Python floats are out of scope). -/
inductive Json where
  | null
  | bool (b : Bool)
  | int (n : Int)
  | str (s : List Char)
  | arr (elems : List Json)
  | obj (fields : List (List Char × Json))

/-- Escaping of one string character by `json.dumps`. -/
def escapeChar (c : Char) : List Char :=
  if c = '"' then ['\\', '"']
  else if c = '\\' then ['\\', '\\']
  else if c = '\n' then ['\\', 'n']
  else if c = '\r' then ['\\', 'r']
  else if c = '\t' then ['\\', 't']
  else [c]

/-- Escaping of a string body by `json.dumps`. -/
def escapeStr : List Char → List Char
  | [] => []
  | c :: rest => escapeChar c ++ escapeStr rest

/-- Decimal digits of a natural number, most significant first. -/
def natDigits (n : Nat) : List Char :=
  if _h : n < 10 then [Nat.digitChar n]
  else natDigits (n / 10) ++ [Nat.digitChar (n % 10)]
decreasing_by exact Nat.div_lt_self (by omega) (by omega)

/-- Decimal rendering of an integer, as `json.dumps` prints int numbers. -/
def intChars (n : Int) : List Char :=
  if n < 0 then '-' :: natDigits (-n).toNat else natDigits n.toNat

mutual

/-- Model of `json.dumps` with its default separators. -/
def dumpsJson : Json → List Char
  | .null => pstr "null"
  | .bool true => pstr "true"
  | .bool false => pstr "false"
  | .int n => intChars n
  | .str s => '"' :: escapeStr s ++ ['"']
  | .arr xs => '[' :: dumpsElems xs ++ [']']
  | .obj fs => '{' :: dumpsFields fs ++ ['}']

/-- Array elements joined by a comma and a space. -/
def dumpsElems : List Json → List Char
  | [] => []
  | x :: ys => dumpsJson x ++ dumpsSep ys

/-- Continuation of an element list: each further element preceded by a comma
and a space. -/
def dumpsSep : List Json → List Char
  | [] => []
  | y :: t => ',' :: ' ' :: (dumpsJson y ++ dumpsSep t)

/-- Object fields joined by a comma and a space, each key quoted and followed
by a colon and a space. -/
def dumpsFields : List (List Char × Json) → List Char
  | [] => []
  | (k, v) :: fs => ('"' :: escapeStr k ++ '"' :: ':' :: ' ' :: dumpsJson v) ++ dumpsFieldSep fs

/-- Continuation of a field list. -/
def dumpsFieldSep : List (List Char × Json) → List Char
  | [] => []
  | (k, v) :: fs =>
      ',' :: ' ' :: (('"' :: escapeStr k ++ '"' :: ':' :: ' ' :: dumpsJson v) ++ dumpsFieldSep fs)

end

/-- Inverse of `escapeChar` on the character following a backslash. -/
def unescapeChar (c : Char) : Option Char :=
  if c = '"' then some '"'
  else if c = '\\' then some '\\'
  else if c = 'n' then some '\n'
  else if c = 'r' then some '\r'
  else if c = 't' then some '\t'
  else none

/-- Read a JSON string body up to its closing quote, undoing escapes;
returns the decoded body and the input after the quote. -/
def readStr : List Char → Option (List Char × List Char)
  | [] => none
  | c :: rest =>
    if c = '"' then some ([], rest)
    else if c = '\\' then
      match rest with
      | [] => none
      | e :: rest2 =>
        match unescapeChar e with
        | none => none
        | some ec =>
          match readStr rest2 with
          | some (s, r) => some (ec :: s, r)
          | none => none
    else
      match readStr rest with
      | some (s, r) => some (c :: s, r)
      | none => none

/-- Digit character to its value. -/
def charDigitVal (c : Char) : Nat := c.toNat - 48

/-- Fold a digit run into a natural number. -/
def digitsToNat (l : List Char) : Nat :=
  l.foldl (fun a c => a * 10 + charDigitVal c) 0

/-- Read a run of decimal digits; fails on an empty run. -/
def readNat (input : List Char) : Option (Nat × List Char) :=
  let digits := input.takeWhile Char.isDigit
  if digits = [] then none
  else some (digitsToNat digits, input.dropWhile Char.isDigit)

mutual

/-- Model of the stdlib JSON reader on one value, fuel-bounded.  It accepts
exactly the shapes `dumpsJson` produces, dispatching on the first character. -/
def parseVal : Nat → List Char → Option (Json × List Char)
  | 0, _ => none
  | fuel + 1, input =>
    match input with
    | [] => none
    | c :: rest =>
      if c = 'n' then
        if rest.take 3 = pstr "ull" then some (.null, rest.drop 3) else none
      else if c = 't' then
        if rest.take 3 = pstr "rue" then some (.bool true, rest.drop 3) else none
      else if c = 'f' then
        if rest.take 4 = pstr "alse" then some (.bool false, rest.drop 4) else none
      else if c = '"' then
        match readStr rest with
        | some (s, r) => some (.str s, r)
        | none => none
      else if c = '[' then
        if rest.head? = some ']' then some (.arr [], rest.tail)
        else
          match parseVal fuel rest with
          | some (x, r) => parseArrTail fuel [x] r
          | none => none
      else if c = '{' then
        if rest.head? = some '}' then some (.obj [], rest.tail)
        else if rest.head? = some '"' then
          match readStr rest.tail with
          | some (k, r1) =>
            if r1.take 2 = pstr ": " then
              match parseVal fuel (r1.drop 2) with
              | some (v, r2) => parseObjTail fuel [(k, v)] r2
              | none => none
            else none
          | none => none
        else none
      else if c = '-' then
        match readNat rest with
        | some (n, r) => some (.int (-(n : Int)), r)
        | none => none
      else if c.isDigit then
        match readNat (c :: rest) with
        | some (n, r) => some (.int (n : Int), r)
        | none => none
      else none

/-- Remaining elements of an array, after at least one element was read. -/
def parseArrTail : Nat → List Json → List Char → Option (Json × List Char)
  | 0, _, _ => none
  | fuel + 1, acc, input =>
    match input with
    | [] => none
    | c :: rest =>
      if c = ']' then some (.arr acc.reverse, rest)
      else if c = ',' then
        if rest.head? = some ' ' then
          match parseVal fuel rest.tail with
          | some (x, r1) => parseArrTail fuel (x :: acc) r1
          | none => none
        else none
      else none

/-- Remaining fields of an object, after at least one field was read. -/
def parseObjTail : Nat → List (List Char × Json) → List Char → Option (Json × List Char)
  | 0, _, _ => none
  | fuel + 1, acc, input =>
    match input with
    | [] => none
    | c :: rest =>
      if c = '}' then some (.obj acc.reverse, rest)
      else if c = ',' then
        if rest.take 2 = pstr " \"" then
          match readStr (rest.drop 2) with
          | some (k, r1) =>
            if r1.take 2 = pstr ": " then
              match parseVal fuel (r1.drop 2) with
              | some (v, r2) => parseObjTail fuel ((k, v) :: acc) r2
              | none => none
            else none
          | none => none
        else none
      else none

end

/-- Model of `json.loads`: read one value and require the input exhausted. -/
def loads (input : List Char) : Option Json :=
  match parseVal (2 * input.length + 2) input with
  | some (j, []) => some j
  | _ => none

mutual

/-- Fuel sufficient for `parseVal` on the serialized form of a value. -/
def jweight : Json → Nat
  | .null => 1
  | .bool _ => 1
  | .int _ => 1
  | .str _ => 1
  | .arr [] => 1
  | .arr (x :: ys) => 1 + jweight x + jweightSep ys
  | .obj [] => 1
  | .obj ((_, v) :: fs) => 1 + jweight v + jweightFieldSep fs

/-- Fuel sufficient for `parseArrTail` on the serialized continuation. -/
def jweightSep : List Json → Nat
  | [] => 0
  | y :: t => 1 + jweight y + jweightSep t

/-- Fuel sufficient for `parseObjTail` on the serialized continuation. -/
def jweightFieldSep : List (List Char × Json) → Nat
  | [] => 0
  | (_, v) :: fs => 1 + jweight v + jweightFieldSep fs

end

/-- The done sentinel `{"done": True}` yielded by the SSE reader. -/
def doneEvent : Json := Json.obj [(pstr "done", Json.bool true)]

/-- Embeds `format_sse_event` (cfx/openai_compat.py, lines 42-53). -/
def format_sse_event (data : Json) : List Char :=
  pstr "data: " ++ dumpsJson data ++ pstr "\n\n"

/-- Embeds `format_sse_done` (cfx/openai_compat.py, lines 56-63). -/
def format_sse_done : List Char := pstr "data: [DONE]\n\n"

/-- Split a character stream into lines at newline characters, as the upstream
line iterator presents them to `parse_sse_stream`. -/
def splitNl : List Char → List (List Char)
  | [] => [[]]
  | c :: rest =>
    if c = '\n' then [] :: splitNl rest
    else
      match splitNl rest with
      | [] => [[c]]
      | h :: t => (c :: h) :: t

/-- Embeds `parse_sse_stream` (cfx/openai_compat.py, lines 66-104) on a line
sequence: skip falsy lines, handle `data: ` lines (the `[DONE]` sentinel, JSON
payloads, silently dropped malformed payloads), skip comment lines, and pass
over anything else. -/
def parse_sse_stream : List (List Char) → List Json
  | [] => []
  | line :: rest =>
    if line = [] then parse_sse_stream rest
    else if List.isPrefixOf (pstr "data: ") line then
      let dataStr := pyStrip (line.drop 6)
      if dataStr = pstr "[DONE]" then doneEvent :: parse_sse_stream rest
      else
        match loads dataStr with
        | some data => data :: parse_sse_stream rest
        | none => parse_sse_stream rest
    else if List.isPrefixOf [':'] line then parse_sse_stream rest
    else parse_sse_stream rest

/-! ## cfx/auth.py and the auth dependency of main.py -/

/-- Outcome of the `api_keys` lookup inside `AuthManager.authenticate`
(cfx/auth.py, lines 81-113): an active row was found, no row matched (unknown
or revoked key), the query raised, or the store client was unconfigured
(`ValueError`). -/
inductive KeyLookup where
  | activeKey
  | missing
  | storeError
  | notConfigured
deriving DecidableEq

/-- The fields of `AuthResult` relevant to the 401 mapping. -/
structure AuthResultM where
  authenticated : Bool
  error : Option (List Char)
deriving DecidableEq

/-- Embeds the tail of `AuthManager.authenticate` (cfx/auth.py, lines 81-113):
the message distinguishes the failure reasons. -/
def authenticate (lookup : KeyLookup) : AuthResultM :=
  match lookup with
  | .activeKey => ⟨true, none⟩
  | .missing => ⟨false, some (pstr "Invalid API key")⟩
  | .notConfigured => ⟨false, some (pstr "Authentication service unavailable")⟩
  | .storeError => ⟨false, some (pstr "Authentication service error")⟩

/-- An `HTTPException` payload as raised by the pipeline dependencies. -/
structure HttpErrorEnvelope where
  status : Nat
  message : List Char
  etype : List Char
  code : Option (List Char)
deriving DecidableEq

/-- Embeds `require_auth` (main.py, lines 77-104): every failed authentication
raises HTTP 401 with type `authentication_error` and code `invalid_api_key`,
carrying the auth result's message. -/
def require_auth (ar : AuthResultM) : Except HttpErrorEnvelope AuthResultM :=
  if ar.authenticated = false then
    .error ⟨401, ar.error.getD (pstr "Invalid API key"), pstr "authentication_error",
            some (pstr "invalid_api_key")⟩
  else .ok ar

/-- Code of the HTTP error `require_auth` raises for a given lookup outcome
(`none` when authentication succeeds). -/
def auth_error_code (lookup : KeyLookup) : Option (List Char) :=
  match require_auth (authenticate lookup) with
  | .error e => e.code
  | .ok _ => none

/-! ## cfx/litellm_client.py: the upstream call, and the chat-completions
handler of main.py

The handler embedding keeps Python's name-resolution semantics for two names:
`start_time`, which `main.py` reads in `chat_completions` (line 426 and every
error path) but never assigns, and `httpx`, which the `except` clauses at
lines 487 and 530 reference although `main.py` never imports it.  Evaluating
an unbound name raises `NameError`; a `NameError` raised while evaluating an
`except` clause replaces the exception being handled and propagates to the
framework, which answers 500. -/

/-- The Python exceptions that can cross the handler's `try` boundary. -/
inductive PyExc where
  | circuitBreakerOpen
  | httpStatusError (status : Nat)
  | timeoutOrConnect
  | nameError (name : List Char)
deriving DecidableEq

/-- One attempt of the upstream HTTP call: a 2xx with a JSON body, a non-2xx
status, or a network-level timeout/connect failure. -/
inductive UpstreamAttempt where
  | ok2xx (body : Json)
  | httpError (status : Nat)
  | netError

/-- Embeds the retry loop of `LiteLLMClient.chat_completions`
(cfx/litellm_client.py, lines 160-237) for the non-streaming transport: a
`CircuitBreakerOpenError` when the breaker blocks the call, one retry for
statuses 502/503/504 and network errors, and propagation of the final
exception.  (The breaker bookkeeping on these paths is covered by the
circuit-breaker state machine above.) -/
def litellm_chat_completions (breakerOpen : Bool) (a1 a2 : UpstreamAttempt) :
    Except PyExc Json :=
  if breakerOpen then .error .circuitBreakerOpen
  else
    match a1 with
    | .ok2xx j => .ok j
    | .httpError s =>
      if s = 502 ∨ s = 503 ∨ s = 504 then
        match a2 with
        | .ok2xx j => .ok j
        | .httpError s2 => .error (.httpStatusError s2)
        | .netError => .error .timeoutOrConnect
      else .error (.httpStatusError s)
    | .netError =>
      match a2 with
      | .ok2xx j => .ok j
      | .httpError s2 => .error (.httpStatusError s2)
      | .netError => .error .timeoutOrConnect

/-- The names bound at module level in main.py: its imports (lines 5-32) and
the module-level assignments (lines 35-62).  `httpx` is not among them. -/
def main_module_bindings : List (List Char) :=
  [pstr "os", pstr "uuid", pstr "time", pstr "logging", pstr "Optional",
   pstr "Tuple", pstr "datetime", pstr "timezone", pstr "FastAPI",
   pstr "Request", pstr "Response", pstr "Header", pstr "HTTPException",
   pstr "Depends", pstr "JSONResponse", pstr "StreamingResponse",
   pstr "CORSMiddleware", pstr "uvicorn", pstr "logger", pstr "get_config",
   pstr "get_auth_manager", pstr "AuthResult", pstr "get_rate_limit_manager",
   pstr "RateLimitResult", pstr "get_concurrency_manager",
   pstr "get_litellm_client", pstr "CircuitBreakerOpenError",
   pstr "transform_request_to_litellm", pstr "format_sse_event",
   pstr "format_sse_done", pstr "parse_sse_stream",
   pstr "create_error_response", pstr "validate_request",
   pstr "get_request_logger", pstr "RequestLog", pstr "get_background_queue",
   pstr "app", pstr "cors_origins_env", pstr "cors_origins", pstr "config",
   pstr "auth_manager", pstr "rate_limit_manager", pstr "concurrency_manager",
   pstr "litellm_client", pstr "request_logger", pstr "background_queue",
   pstr "startup_event", pstr "shutdown_event", pstr "require_auth",
   pstr "check_rate_limit", pstr "health_check", pstr "chat_completions"]

/-- Whether the name `httpx` resolves in main.py's module namespace. -/
def httpx_resolvable : Bool := main_module_bindings.contains (pstr "httpx")

/-- The local names `chat_completions` has assigned when the non-streaming
branch computes its latency (main.py, up to line 426).  `start_time` is not
among them. -/
def chat_completions_locals : List (List Char) :=
  [pstr "request", pstr "auth_and_rate_limit", pstr "x_cfx_stage",
   pstr "auth_result", pstr "rate_limit_result", pstr "request_id",
   pstr "request_body", pstr "is_valid", pstr "error_msg", pstr "stage",
   pstr "model_used", pstr "is_streaming", pstr "headers",
   pstr "litellm_request", pstr "response_data"]

/-- Whether the name `start_time` resolves where the handler reads it. -/
def start_time_resolvable : Bool :=
  chat_completions_locals.contains (pstr "start_time")
  || main_module_bindings.contains (pstr "start_time")

/-- Evaluation of `int((time.time() - start_time) * 1000)`: raises `NameError`
when `start_time` is unbound; the latency value itself is irrelevant to the
claims, so it is returned as 0. -/
def eval_latency_line : Except PyExc Int :=
  if start_time_resolvable then .ok 0
  else .error (.nameError (pstr "start_time"))

/-- Embeds `create_error_response` (cfx/openai_compat.py, lines 107-131). -/
def create_error_response (etype msg : List Char) (code : Option (List Char)) : Json :=
  match code with
  | some c =>
    Json.obj [(pstr "error",
      Json.obj [(pstr "message", Json.str msg), (pstr "type", Json.str etype),
                (pstr "code", Json.str c)])]
  | none =>
    Json.obj [(pstr "error",
      Json.obj [(pstr "message", Json.str msg), (pstr "type", Json.str etype)])]

/-- What the chat-completions request ends in: an HTTP response built by the
handler, or an exception the handler let escape to the framework. -/
inductive HandlerOutcome where
  | response (status : Nat) (body : Json)
  | unhandled (e : PyExc)

/-- Whether the handler produced an HTTP response of its own. -/
def isHandlerResponse : HandlerOutcome → Bool
  | .response _ _ => true
  | .unhandled _ => false

/-- Status of the handler's own HTTP response, if any. -/
def handlerStatus : HandlerOutcome → Option Nat
  | .response s _ => some s
  | .unhandled _ => none

/-- The `try` body of the non-streaming branch (main.py, lines 421-459): the
upstream call, then the latency computation at line 426, which reads the
unassigned `start_time`; the 200 response of line 456 is reached only if
neither raises. -/
def nonstreaming_try_body (upstream : Except PyExc Json) : Except PyExc Json :=
  match upstream with
  | .error e => .error e
  | .ok response_data =>
    match eval_latency_line with
    | .error e => .error e
    | .ok _ => .ok response_data

/-- The handler's `except` chain (main.py, lines 461-582).  The
`CircuitBreakerOpenError` clause names an imported binding; the
`httpx.HTTPStatusError` and `httpx.TimeoutException` clauses first evaluate
`httpx`, raising `NameError` when it is not importable from the module
namespace.  Every logging block recomputes the latency from `start_time`
(lines 464, 493, 533, 560) when a user id is present. -/
def handle_exception (userIdPresent : Bool) (e : PyExc) : HandlerOutcome :=
  if e = .circuitBreakerOpen then
    match (if userIdPresent then eval_latency_line else .ok 0) with
    | .error e2 => .unhandled e2
    | .ok _ =>
      .response 503 (create_error_response (pstr "service_unavailable_error")
        (pstr "Upstream service unavailable (circuit breaker open)") none)
  else if httpx_resolvable = false then
    .unhandled (.nameError (pstr "httpx"))
  else
    match e with
    | .httpStatusError s =>
      match (if userIdPresent then eval_latency_line else .ok 0) with
      | .error e2 => .unhandled e2
      | .ok _ =>
        if s = 503 then
          .response 503 (create_error_response (pstr "service_unavailable_error")
            (pstr "Upstream service unavailable") none)
        else
          .response 502 (create_error_response (pstr "upstream_error")
            (pstr "Upstream error") none)
    | .timeoutOrConnect =>
      match (if userIdPresent then eval_latency_line else .ok 0) with
      | .error e2 => .unhandled e2
      | .ok _ =>
        .response 503 (create_error_response (pstr "service_unavailable_error")
          (pstr "Upstream service timeout or connection error") none)
    | _ =>
      match (if userIdPresent then eval_latency_line else .ok 0) with
      | .error e2 => .unhandled e2
      | .ok _ =>
        .response 500 (create_error_response (pstr "internal_error")
          (pstr "Internal server error") none)

/-- The non-streaming tail of `chat_completions` (main.py, lines 421-582), for
a request that already passed authentication, quota, body validation and stage
resolution: run the try body on the upstream result, else dispatch to the
except chain. -/
def chat_completions_nonstreaming (userIdPresent : Bool)
    (upstream : Except PyExc Json) : HandlerOutcome :=
  match nonstreaming_try_body upstream with
  | .ok response_data => .response 200 response_data
  | .error e => handle_exception userIdPresent e

/-! ## Helper lemmas -/

theorem applyConcOp_nonneg (s : ConcurrencyState) (h : ∀ u, 0 ≤ s u) (op : ConcOp) :
    ∀ u, 0 ≤ applyConcOp s op u := by
  intro u
  cases op with
  | acquire v cap =>
    simp only [applyConcOp, acquire_stream_slot]
    split
    · exact h u
    · simp only [updateCount]
      split
      · have := h v; omega
      · exact h u
  | release v =>
    simp only [applyConcOp, release_stream_slot]
    split
    · simp only [updateCount]
      split
      · have := h v; omega
      · exact h u
    · simp only [updateCount]
      split
      · omega
      · exact h u

theorem runConcOps_nonneg : ∀ (ops : List ConcOp) (s : ConcurrencyState),
    (∀ u, 0 ≤ s u) → ∀ u, 0 ≤ runConcOps s ops u := by
  intro ops
  induction ops with
  | nil => intro s h u; exact h u
  | cons op rest ih =>
    intro s h u
    exact ih (applyConcOp s op) (applyConcOp_nonneg s h op) u

theorem record_failure_count (cb : CircuitBreaker) (t : Int) :
    (record_failure cb t).failure_count = cb.failure_count + 1
    ∧ (record_failure cb t).failure_threshold = cb.failure_threshold := by
  simp only [record_failure]
  split <;> exact ⟨rfl, rfl⟩

theorem record_failure_state_open (cb : CircuitBreaker) (t : Int)
    (h : cb.failure_threshold ≤ cb.failure_count + 1) :
    (record_failure cb t).state = .open_ := by
  simp only [record_failure]
  rw [if_pos h]

theorem cbStep_threshold (cb : CircuitBreaker) (op : CBOp) :
    (cbStep cb op).failure_threshold = cb.failure_threshold := by
  obtain ⟨thr, rec, st, fc, sc, lft⟩ := cb
  cases op with
  | success =>
    cases st with
    | closed => rfl
    | open_ => rfl
    | half_open =>
      simp only [cbStep, record_success]
      split
      · rfl
      · rfl

  | failure t =>
    simp [cbStep, record_failure]
    split
    · rfl
    · rfl
  | query t =>
    cases st <;> simp [cbStep, is_open]
    cases lft with
    | none => rfl
    | some t0 => simp only []; split <;> rfl

theorem cbRun_threshold : ∀ (ops : List CBOp) (cb : CircuitBreaker),
    (cbRun cb ops).failure_threshold = cb.failure_threshold := by
  intro ops
  induction ops with
  | nil => intro cb; rfl
  | cons op rest ih =>
    intro cb
    rw [cbRun, ih, cbStep_threshold]

theorem cbStep_inv (cb : CircuitBreaker) (op : CBOp)
    (h : cb.state ≠ .closed → cb.failure_threshold ≤ cb.failure_count) :
    (cbStep cb op).state ≠ .closed →
      (cbStep cb op).failure_threshold ≤ (cbStep cb op).failure_count := by
  obtain ⟨thr, rec, st, fc, sc, lft⟩ := cb
  cases op with
  | success =>
    cases st with
    | closed => intro hne; exact absurd rfl hne
    | open_ => exact h
    | half_open =>
      simp only [cbStep, record_success]
      split
      · intro hne; exact absurd rfl hne
      · intro _; exact h (by simp)
  | failure t =>
    simp only [cbStep, record_failure]
    split
    · next hcond =>
        intro _
        simp only at hcond ⊢
        omega
    · intro hne
      have hle := h (by simpa using hne)
      simp only at hle ⊢
      omega
  | query t =>
    cases st with
    | closed => exact h
    | half_open => exact h
    | open_ =>
      simp only [cbStep, is_open]
      cases lft with
      | none => exact h
      | some t0 =>
        simp only []
        split
        · intro _; exact h (by simp)
        · exact h

theorem cbRun_inv : ∀ (ops : List CBOp) (cb : CircuitBreaker),
    (cb.state ≠ .closed → cb.failure_threshold ≤ cb.failure_count) →
    ((cbRun cb ops).state ≠ .closed →
      (cbRun cb ops).failure_threshold ≤ (cbRun cb ops).failure_count) := by
  intro ops
  induction ops with
  | nil => intro cb h; exact h
  | cons op rest ih =>
    intro cb h
    exact ih (cbStep cb op) (cbStep_inv cb op h)

theorem isPrefixOf_append_self (p rest : List Char) :
    List.isPrefixOf p (p ++ rest) = true := by
  induction p with
  | nil => simp
  | cons a as ih => simp [List.isPrefixOf_cons₂, ih]

/-! ## The claims -/

/-- C7: the concurrency ledger invariant: under every operation sequence every
per-user count stays nonnegative; `acquire_stream_slot` answers true exactly
when the current count is strictly below the resolved cap, increments only in
that case and touches nothing on refusal; `release_stream_slot` decrements
with a floor of zero and leaves other users alone. -/
theorem concurrency_ledger_invariant :
    (∀ (ops : List ConcOp) (u : Nat), 0 ≤ runConcOps initialStreams ops u)
    ∧ (∀ (s : ConcurrencyState) (u : Nat) (cap : Int),
        (acquire_stream_slot s u cap).1 = true ↔ s u < cap)
    ∧ (∀ (s : ConcurrencyState) (u : Nat) (cap : Int),
        (acquire_stream_slot s u cap).1 = true →
          (acquire_stream_slot s u cap).2 u = s u + 1)
    ∧ (∀ (s : ConcurrencyState) (u : Nat) (cap : Int) (w : Nat), w ≠ u →
        (acquire_stream_slot s u cap).2 w = s w)
    ∧ (∀ (s : ConcurrencyState) (u : Nat) (cap : Int),
        (acquire_stream_slot s u cap).1 = false → (acquire_stream_slot s u cap).2 = s)
    ∧ (∀ (s : ConcurrencyState) (u : Nat), 0 ≤ s u →
        release_stream_slot s u u = max 0 (s u - 1))
    ∧ (∀ (s : ConcurrencyState) (u w : Nat), w ≠ u →
        release_stream_slot s u w = s w) := by
  refine ⟨?_, ?_, ?_, ?_, ?_, ?_, ?_⟩
  · intro ops u
    exact runConcOps_nonneg ops initialStreams (fun _ => le_refl 0) u
  · intro s u cap
    simp only [acquire_stream_slot]
    by_cases hge : s u ≥ cap
    · rw [if_pos hge]
      simp
      omega
    · rw [if_neg hge]
      simp
      omega
  · intro s u cap hacq
    simp only [acquire_stream_slot] at hacq ⊢
    by_cases hge : s u ≥ cap
    · rw [if_pos hge] at hacq
      simp at hacq
    · rw [if_neg hge]
      simp [updateCount]
  · intro s u cap w hw
    simp only [acquire_stream_slot]
    by_cases hge : s u ≥ cap
    · rw [if_pos hge]
    · rw [if_neg hge]
      simp [updateCount, hw]
  · intro s u cap hacq
    simp only [acquire_stream_slot] at hacq ⊢
    by_cases hge : s u ≥ cap
    · rw [if_pos hge]
    · rw [if_neg hge] at hacq
      simp at hacq
  · intro s u h0
    simp only [release_stream_slot]
    by_cases hp : s u > 0
    · rw [if_pos hp]
      simp [updateCount]
      omega
    · rw [if_neg hp]
      simp [updateCount]
      omega
  · intro s u w hw
    simp only [release_stream_slot]
    by_cases hp : s u > 0
    · rw [if_pos hp]
      simp [updateCount, hw]
    · rw [if_neg hp]
      simp [updateCount, hw]

/-- Witness for C7 at concrete inputs. -/
theorem concurrency_ledger_invariant_witness :
    (0 ≤ runConcOps initialStreams
        [ConcOp.acquire 7 2, ConcOp.acquire 7 2, ConcOp.release 7] 7)
    ∧ (acquire_stream_slot initialStreams 7 2).1 = true
    ∧ (acquire_stream_slot initialStreams 7 2).2 7 = initialStreams 7 + 1
    ∧ (acquire_stream_slot (fun _ => 5) 7 2).2 = (fun _ => (5 : Int))
    ∧ release_stream_slot (fun _ => 0) 7 7 = max 0 ((0 : Int) - 1) :=
  ⟨concurrency_ledger_invariant.1 _ 7,
   (concurrency_ledger_invariant.2.1 initialStreams 7 2).mpr (by decide),
   concurrency_ledger_invariant.2.2.1 initialStreams 7 2 (by decide),
   concurrency_ledger_invariant.2.2.2.2.1 (fun _ => 5) 7 2 (by decide),
   concurrency_ledger_invariant.2.2.2.2.2.1 (fun _ => 0) 7 (by decide)⟩

/-- C4: a store error during the check-and-increment fails open: the decision
has `allowed = true` and `remaining = limit - 1`, for every user limit (and
likewise when the store client is unconfigured). -/
theorem quota_store_error_fails_open (dayUtc limit : Int) :
    check_and_increment .dbError dayUtc limit =
      ⟨true, limit - 1, reset_timestamp_of_day dayUtc, limit⟩
    ∧ check_and_increment .notConfigured dayUtc limit =
      ⟨true, limit - 1, reset_timestamp_of_day dayUtc, limit⟩ :=
  ⟨rfl, rfl⟩

/-- C5 counterexample: a user row with a direct `daily_limit` of 0 and plan
`pro` resolves to the plan limit 4000, not to the set override 0, so a
decision the claim says must deny (post-count 1 against the claimed limit 0)
is allowed by the code. -/
theorem quota_limit_resolution_counterexample :
    get_daily_limit (some ⟨some 0, some (pstr "pro")⟩) 1000 = 4000
    ∧ claim_resolved_limit (some ⟨some 0, some (pstr "pro")⟩) 1000 = 0
    ∧ (check_and_increment (.upsertCount 1) 0
        (get_daily_limit (some ⟨some 0, some (pstr "pro")⟩) 1000)).allowed = true
    ∧ decide ((1 : Int) ≤ claim_resolved_limit (some ⟨some 0, some (pstr "pro")⟩) 1000)
        = false := by
  refine ⟨by decide, by decide, by decide, by decide⟩

/-- C5 (amended): every decision that reaches the backend satisfies
`allowed = (post_count <= limit)` and `remaining = max 0 (limit - post_count)`
— on the upsert fallback path by the code at rate_limit.py lines 222-231 and
on the RPC path for the spec-modelled RPC — where the limit is the direct
per-user override when set to a nonzero value, else the plan-derived limit,
else the process default. -/
theorem quota_decision_amended :
    (∀ c dayUtc limit : Int,
      (check_and_increment (.upsertCount c) dayUtc limit).allowed = decide (c ≤ limit)
      ∧ (check_and_increment (.upsertCount c) dayUtc limit).remaining = max 0 (limit - c)
      ∧ (check_and_increment (increment_usage_counter_rpc c limit) dayUtc limit).allowed
          = decide (c ≤ limit)
      ∧ (check_and_increment (increment_usage_counter_rpc c limit) dayUtc limit).remaining
          = max 0 (limit - c))
    ∧ (∀ (row : Option UserLimitsRow) (d : Int),
        get_daily_limit row d = amended_resolved_limit row d) := by
  constructor
  · intro c dayUtc limit
    exact ⟨rfl, rfl, rfl, rfl⟩
  · intro row d
    match row with
    | none => rfl
    | some ⟨dl, plan⟩ =>
      match dl with
      | none => rfl
      | some v =>
        by_cases hv : v = 0
        · subst hv
          simp [get_daily_limit, amended_resolved_limit, pyTruthyOptInt,
            plan_fallback_limit]
        · simp [get_daily_limit, amended_resolved_limit, pyTruthyOptInt, hv]

/-- C10: a direct `daily_limit` of 0 is falsy, so the override is ignored and
the plan-derived (or default) limit applies; a nonzero override is returned
as-is. -/
theorem zero_daily_limit_override_ignored :
    (∀ (plan : Option (List Char)) (d : Int),
      get_daily_limit (some ⟨some 0, plan⟩) d = plan_fallback_limit plan d)
    ∧ (∀ (v : Int) (plan : Option (List Char)) (d : Int), v ≠ 0 →
      get_daily_limit (some ⟨some v, plan⟩) d = v) := by
  constructor
  · intro plan d
    simp [get_daily_limit, pyTruthyOptInt, plan_fallback_limit]
  · intro v plan d hv
    simp [get_daily_limit, pyTruthyOptInt, hv]

/-- Witness for C10 at concrete inputs. -/
theorem zero_daily_limit_override_ignored_witness :
    get_daily_limit (some ⟨some 0, some (pstr "agency")⟩) 1000 = 15000
    ∧ get_daily_limit (some ⟨some 250, some (pstr "agency")⟩) 1000 = 250 :=
  ⟨(zero_daily_limit_override_ignored.1 (some (pstr "agency")) 1000).trans (by decide),
   zero_daily_limit_override_ignored.2 250 (some (pstr "agency")) 1000 (by decide)⟩

/-- C3 counterexample: a store failure during the key lookup produces HTTP 401
whose error code is `invalid_api_key` — the very code used for unknown or
revoked keys — so the codes are not distinct. -/
theorem auth_store_failure_same_code_counterexample :
    require_auth (authenticate .storeError)
      = .error ⟨401, pstr "Authentication service error", pstr "authentication_error",
                some (pstr "invalid_api_key")⟩
    ∧ auth_error_code .storeError = some (pstr "invalid_api_key")
    ∧ auth_error_code .missing = some (pstr "invalid_api_key")
    ∧ decide (auth_error_code .storeError = auth_error_code .missing) = true :=
  ⟨rfl, by decide, by decide, by decide⟩

/-- C3 (amended): a store failure during the key lookup yields HTTP 401 whose
error message (`Authentication service error`, or `Authentication service
unavailable` when the store client is unconfigured) differs from the
`Invalid API key` message used for unknown or revoked keys, but the error code
field is `invalid_api_key` in all three cases. -/
theorem auth_store_failure_distinct_message :
    require_auth (authenticate .storeError)
      = .error ⟨401, pstr "Authentication service error", pstr "authentication_error",
                some (pstr "invalid_api_key")⟩
    ∧ require_auth (authenticate .notConfigured)
      = .error ⟨401, pstr "Authentication service unavailable", pstr "authentication_error",
                some (pstr "invalid_api_key")⟩
    ∧ require_auth (authenticate .missing)
      = .error ⟨401, pstr "Invalid API key", pstr "authentication_error",
                some (pstr "invalid_api_key")⟩
    ∧ decide (pstr "Authentication service error" = pstr "Invalid API key") = false
    ∧ decide (pstr "Authentication service unavailable" = pstr "Invalid API key") = false :=
  ⟨rfl, rfl, rfl, by decide, by decide⟩

/-- C1: on the non-streaming success path the handler never returns the
upstream JSON: after the upstream call succeeds, line 426 of main.py reads the
never-assigned `start_time`, the resulting `NameError` reaches the `except`
chain, and evaluating `httpx.HTTPStatusError` at line 487 raises
`NameError: httpx` (main.py never imports httpx), which escapes to the
framework (HTTP 500) instead of the claimed 200 with the upstream body. -/
theorem nonstreaming_success_crashes (j : Json) (a2 : UpstreamAttempt) :
    litellm_chat_completions false (.ok2xx j) a2 = .ok j
    ∧ chat_completions_nonstreaming true (litellm_chat_completions false (.ok2xx j) a2)
        = .unhandled (.nameError (pstr "httpx"))
    ∧ isHandlerResponse
        (chat_completions_nonstreaming true (litellm_chat_completions false (.ok2xx j) a2))
        = false :=
  ⟨rfl, rfl, rfl⟩

/-- C2: an upstream failure with a non-retryable non-2xx status propagates as
an `HTTPStatusError`, but the `except httpx.HTTPStatusError` clause at line
487 of main.py evaluates the never-imported name `httpx`, so the handler dies
with `NameError: httpx` (HTTP 500 from the framework) instead of returning the
claimed 502 upstream_error envelope. -/
theorem upstream_error_claim_fails (s : Nat) (userIdPresent : Bool)
    (h : ¬(s = 502 ∨ s = 503 ∨ s = 504)) :
    litellm_chat_completions false (.httpError s) .netError = .error (.httpStatusError s)
    ∧ chat_completions_nonstreaming userIdPresent (.error (.httpStatusError s))
        = .unhandled (.nameError (pstr "httpx"))
    ∧ handlerStatus
        (chat_completions_nonstreaming userIdPresent (.error (.httpStatusError s)))
        = none := by
  have hx : httpx_resolvable = false := by decide
  refine ⟨?_, ?_, ?_⟩
  · simp [litellm_chat_completions, h]
  · simp [chat_completions_nonstreaming, nonstreaming_try_body, handle_exception, hx]
  · simp [chat_completions_nonstreaming, nonstreaming_try_body, handle_exception, hx,
      handlerStatus]

/-- Witness for C2 at the concrete status 404. -/
theorem upstream_error_claim_fails_witness :
    litellm_chat_completions false (.httpError 404) .netError
      = .error (.httpStatusError 404)
    ∧ chat_completions_nonstreaming true (.error (.httpStatusError 404))
        = .unhandled (.nameError (pstr "httpx"))
    ∧ handlerStatus (chat_completions_nonstreaming true (.error (.httpStatusError 404)))
        = none :=
  upstream_error_claim_fails 404 true (by decide)

/-- C6: the circuit breaker state machine: from closed, five consecutive
recorded failures open it; while open, `is_open` answers false exactly when
the recovery timeout has elapsed since the last failure, moving to half-open
with a reset success count; in half-open, two recorded successes close it
(resetting the failure count) and, in any state the default breaker can reach
with half-open status, one recorded failure reopens it; in closed, a recorded
success resets the failure count. -/
theorem circuit_breaker_state_machine :
    (∀ (cb : CircuitBreaker) (t1 t2 t3 t4 t5 : Int),
      cb.state = .closed → cb.failure_threshold = 5 →
      (record_failure (record_failure (record_failure (record_failure
        (record_failure cb t1) t2) t3) t4) t5).state = .open_)
    ∧ (∀ (cb : CircuitBreaker) (now : Int), cb.state = .open_ →
        (((is_open cb now).1 = false ↔
          ∃ t, cb.last_failure_time = some t ∧ cb.recovery_timeout ≤ now - t)
        ∧ ((is_open cb now).1 = false →
            (is_open cb now).2.state = .half_open ∧ (is_open cb now).2.success_count = 0)))
    ∧ (∀ cb : CircuitBreaker, cb.state = .half_open → cb.success_count = 0 →
        (record_success (record_success cb)).state = .closed
        ∧ (record_success (record_success cb)).failure_count = 0)
    ∧ (∀ (ops : List CBOp) (t : Int),
        (cbRun (mkCircuitBreaker 5 60) ops).state = .half_open →
        (record_failure (cbRun (mkCircuitBreaker 5 60) ops) t).state = .open_)
    ∧ (∀ cb : CircuitBreaker, cb.state = .closed →
        (record_success cb).failure_count = 0) := by
  refine ⟨?_, ?_, ?_, ?_, ?_⟩
  · intro cb t1 t2 t3 t4 t5 hst hthr
    have h1 := record_failure_count cb t1
    have h2 := record_failure_count (record_failure cb t1) t2
    have h3 := record_failure_count (record_failure (record_failure cb t1) t2) t3
    have h4 := record_failure_count
      (record_failure (record_failure (record_failure cb t1) t2) t3) t4
    apply record_failure_state_open
    omega
  · intro cb now hst
    obtain ⟨thr, rec, st, fc, sc, lft⟩ := cb
    simp only at hst
    subst hst
    cases lft with
    | none =>
      constructor
      · simp [is_open]
      · simp [is_open]
    | some t0 =>
      by_cases hrec : now - t0 ≥ rec
      · constructor
        · simp only [is_open]
          rw [if_pos hrec]
          simp
          omega
        · intro _
          simp only [is_open]
          rw [if_pos hrec]
          exact ⟨rfl, rfl⟩
      · constructor
        · simp only [is_open]
          rw [if_neg hrec]
          simp
          omega
        · intro hfalse
          simp only [is_open] at hfalse
          rw [if_neg hrec] at hfalse
          simp at hfalse
  · intro cb hst hsc
    obtain ⟨thr, rec, st, fc, sc, lft⟩ := cb
    simp only at hst hsc
    subst hst
    subst hsc
    simp [record_success]
  · intro ops t hhalf
    have hinv := cbRun_inv ops (mkCircuitBreaker 5 60) (fun h => absurd rfl h)
    have hthr := cbRun_threshold ops (mkCircuitBreaker 5 60)
    have hfc : (cbRun (mkCircuitBreaker 5 60) ops).failure_threshold
        ≤ (cbRun (mkCircuitBreaker 5 60) ops).failure_count := by
      apply hinv
      rw [hhalf]
      simp
    apply record_failure_state_open
    omega
  · intro cb hst
    obtain ⟨thr, rec, st, fc, sc, lft⟩ := cb
    simp only at hst
    subst hst
    simp [record_success]

/-- Witness for C6 at concrete breaker states. -/
theorem circuit_breaker_state_machine_witness :
    (record_failure (record_failure (record_failure (record_failure
      (record_failure (mkCircuitBreaker 5 60) 0) 1) 2) 3) 4).state = .open_
    ∧ (is_open ⟨5, 60, .open_, 5, 0, some 0⟩ 60).1 = false
    ∧ (record_success (record_success ⟨5, 60, .half_open, 5, 0, some 0⟩)).state = .closed
    ∧ (record_failure (cbRun (mkCircuitBreaker 5 60)
        [.failure 0, .failure 1, .failure 2, .failure 3, .failure 4, .query 100]) 101).state
        = .open_
    ∧ (record_success ⟨5, 60, .closed, 3, 0, none⟩).failure_count = 0 :=
  ⟨circuit_breaker_state_machine.1 (mkCircuitBreaker 5 60) 0 1 2 3 4 rfl rfl,
   ((circuit_breaker_state_machine.2.1 ⟨5, 60, .open_, 5, 0, some 0⟩ 60 rfl).1).mpr
     ⟨0, rfl, by decide⟩,
   (circuit_breaker_state_machine.2.2.1 ⟨5, 60, .half_open, 5, 0, some 0⟩ rfl rfl).1,
   circuit_breaker_state_machine.2.2.2.1
     [.failure 0, .failure 1, .failure 2, .failure 3, .failure 4, .query 100] 101
     (by decide),
   circuit_breaker_state_machine.2.2.2.2 ⟨5, 60, .closed, 3, 0, none⟩ rfl⟩

/-- C9 counterexample: the token consisting of one space is non-empty, yet
`extract_bearer_token` applied to `Bearer ` followed by it returns `none`
(the strip of the remainder is empty), not the token itself. -/
theorem extract_bearer_roundtrip_counterexample :
    decide (([' '] : List Char) = []) = false
    ∧ extract_bearer_token (some (pstr "Bearer " ++ [' '])) = none
    ∧ decide (extract_bearer_token (some (pstr "Bearer " ++ [' '])) = some [' ']) = false :=
  ⟨by decide, by decide, by decide⟩

/-- C9 (amended): for every non-empty token equal to its own strip (no leading
or trailing whitespace), `extract_bearer_token` of `Bearer ` followed by the
token returns the token; it returns `none` for a missing header, an empty
header, a header without the case-sensitive `Bearer ` prefix, and a token that
is empty after stripping. -/
theorem extract_bearer_amended :
    (∀ t : List Char, t ≠ [] → pyStrip t = t →
      extract_bearer_token (some (pstr "Bearer " ++ t)) = some t)
    ∧ extract_bearer_token none = none
    ∧ extract_bearer_token (some []) = none
    ∧ (∀ s : List Char, List.isPrefixOf (pstr "Bearer ") s = false →
        extract_bearer_token (some s) = none)
    ∧ (∀ t : List Char, pyStrip t = [] →
        extract_bearer_token (some (pstr "Bearer " ++ t)) = none) := by
  have hdrop : ∀ t : List Char, (pstr "Bearer " ++ t).drop 7 = t := by
    intro t
    rw [show 7 = (pstr "Bearer ").length from rfl, List.drop_left]
  have hne : ∀ t : List Char, pstr "Bearer " ++ t ≠ [] := by
    intro t h
    have := congrArg List.length h
    simp [pstr] at this
  refine ⟨?_, rfl, rfl, ?_, ?_⟩
  · intro t ht hstrip
    simp only [extract_bearer_token]
    rw [if_neg (hne t), if_pos (isPrefixOf_append_self _ _)]
    simp only [hdrop, hstrip]
    rw [if_neg ht]
  · intro s hpre
    simp only [extract_bearer_token]
    by_cases hs : s = []
    · rw [if_pos hs]
    · rw [if_neg hs, if_neg]
      simp [hpre]
  · intro t hstrip
    simp only [extract_bearer_token]
    rw [if_neg (hne t), if_pos (isPrefixOf_append_self _ _)]
    simp [hdrop, hstrip]

/-- Witness for C9 (amended) at concrete inputs. -/
theorem extract_bearer_amended_witness :
    extract_bearer_token (some (pstr "Bearer " ++ pstr "cfx_key_1"))
      = some (pstr "cfx_key_1")
    ∧ extract_bearer_token (some (pstr "Basic abc")) = none
    ∧ extract_bearer_token (some (pstr "Bearer " ++ pstr "  ")) = none :=
  ⟨extract_bearer_amended.1 (pstr "cfx_key_1") (by decide) (by decide),
   extract_bearer_amended.2.2.2.1 (pstr "Basic abc") (by decide),
   extract_bearer_amended.2.2.2.2 (pstr "  ") (by decide)⟩

/-! ## Helper lemmas for the SSE round-trip (C8) -/

theorem jweight_pos : ∀ x : Json, 1 ≤ jweight x := by
  intro x
  cases x with
  | null => simp [jweight]
  | bool b => simp [jweight]
  | int n => simp [jweight]
  | str s => simp [jweight]
  | arr xs =>
    cases xs with
    | nil => simp [jweight]
    | cons z zs => simp [jweight]; omega
  | obj fs =>
    cases fs with
    | nil => simp [jweight]
    | cons f fs =>
      obtain ⟨k, v⟩ := f
      simp [jweight]
      omega

theorem digitChar_isDigit (d : Nat) (h : d < 10) : (Nat.digitChar d).isDigit = true := by
  interval_cases d <;> decide

theorem charDigitVal_digitChar (d : Nat) (h : d < 10) :
    charDigitVal (Nat.digitChar d) = d := by
  interval_cases d <;> decide

theorem natDigits_head : ∀ n : Nat, ∃ c cs, natDigits n = c :: cs ∧ c.isDigit = true := by
  intro n
  induction n using Nat.strong_induction_on with
  | _ n ih =>
    rw [natDigits]
    by_cases h : n < 10
    · rw [dif_pos h]
      exact ⟨Nat.digitChar n, [], rfl, digitChar_isDigit n h⟩
    · rw [dif_neg h]
      obtain ⟨c, cs, hcs, hc⟩ := ih (n / 10) (Nat.div_lt_self (by omega) (by omega))
      exact ⟨c, cs ++ [Nat.digitChar (n % 10)], by rw [hcs]; rfl, hc⟩

theorem natDigits_all_digits : ∀ (n : Nat) (c : Char), c ∈ natDigits n → c.isDigit = true := by
  intro n
  induction n using Nat.strong_induction_on with
  | _ n ih =>
    intro c hc
    rw [natDigits] at hc
    by_cases h : n < 10
    · rw [dif_pos h] at hc
      simp at hc
      subst hc
      exact digitChar_isDigit n h
    · rw [dif_neg h] at hc
      rcases List.mem_append.mp hc with hm | hm
      · exact ih (n / 10) (Nat.div_lt_self (by omega) (by omega)) c hm
      · simp at hm
        subst hm
        exact digitChar_isDigit (n % 10) (Nat.mod_lt n (by omega))

theorem digitsToNat_natDigits : ∀ n : Nat, digitsToNat (natDigits n) = n := by
  intro n
  induction n using Nat.strong_induction_on with
  | _ n ih =>
    rw [natDigits]
    by_cases h : n < 10
    · rw [dif_pos h]
      simp [digitsToNat, charDigitVal_digitChar n h]
    · rw [dif_neg h]
      have hrec := ih (n / 10) (Nat.div_lt_self (by omega) (by omega))
      simp only [digitsToNat, List.foldl_append, List.foldl_cons, List.foldl_nil]
      simp only [digitsToNat] at hrec
      rw [hrec, charDigitVal_digitChar (n % 10) (Nat.mod_lt n (by omega))]
      omega

theorem takeWhile_dropWhile_append (p : Char → Bool) :
    ∀ (l rest : List Char), (∀ c ∈ l, p c = true) →
    (rest = [] ∨ ∃ d rs, rest = d :: rs ∧ p d = false) →
    (l ++ rest).takeWhile p = l ∧ (l ++ rest).dropWhile p = rest := by
  intro l
  induction l with
  | nil =>
    intro rest _ hrest
    rcases hrest with rfl | ⟨d, rs, rfl, hd⟩
    · exact ⟨rfl, rfl⟩
    · simp [List.takeWhile_cons, List.dropWhile_cons, hd]
  | cons c cs ih =>
    intro rest hall hrest
    have hc : p c = true := hall c (by simp)
    have hih := ih rest (fun d hd => hall d (by simp [hd])) hrest
    simp [List.takeWhile_cons, List.dropWhile_cons, hc, hih.1, hih.2]

theorem readNat_natDigits (n : Nat) (rest : List Char)
    (hrest : rest = [] ∨ ∃ d rs, rest = d :: rs ∧ d.isDigit = false) :
    readNat (natDigits n ++ rest) = some (n, rest) := by
  have htd := takeWhile_dropWhile_append Char.isDigit (natDigits n) rest
    (natDigits_all_digits n) hrest
  obtain ⟨c, cs, hcs, _⟩ := natDigits_head n
  simp only [readNat, htd.1, htd.2]
  rw [if_neg (by rw [hcs]; exact List.cons_ne_nil c cs), digitsToNat_natDigits]

theorem readStr_escape : ∀ (s rest : List Char),
    readStr (escapeStr s ++ '"' :: rest) = some (s, rest) := by
  intro s
  induction s with
  | nil =>
    intro rest
    show readStr ('"' :: rest) = _
    rw [readStr.eq_def]
    simp
  | cons c cs ih =>
    intro rest
    show readStr ((escapeChar c ++ escapeStr cs) ++ '"' :: rest) = _
    rw [List.append_assoc]
    by_cases h1 : c = '"'
    · subst h1
      rw [show escapeChar '"' = ['\\', '"'] from rfl, List.cons_append, List.cons_append,
        readStr.eq_def]
      simp +decide [unescapeChar, ih]
    · by_cases h2 : c = '\\'
      · subst h2
        rw [show escapeChar '\\' = ['\\', '\\'] from rfl, List.cons_append, List.cons_append,
          readStr.eq_def]
        simp +decide [unescapeChar, ih]
      · by_cases h3 : c = '\n'
        · subst h3
          rw [show escapeChar '\n' = ['\\', 'n'] from rfl, List.cons_append, List.cons_append,
            readStr.eq_def]
          simp +decide [unescapeChar, ih]
        · by_cases h4 : c = '\r'
          · subst h4
            rw [show escapeChar '\r' = ['\\', 'r'] from rfl, List.cons_append,
              List.cons_append, readStr.eq_def]
            simp +decide [unescapeChar, ih]
          · by_cases h5 : c = '\t'
            · subst h5
              rw [show escapeChar '\t' = ['\\', 't'] from rfl, List.cons_append,
                List.cons_append, readStr.eq_def]
              simp +decide [unescapeChar, ih]
            · rw [show escapeChar c = [c] from by simp [escapeChar, h1, h2, h3, h4, h5],
                List.cons_append, List.nil_append, readStr.eq_def]
              simp [h1, h2, ih]

theorem escapeChar_no_nl (c : Char) : '\n' ∉ escapeChar c := by
  by_cases h1 : c = '"'
  · subst h1; decide
  · by_cases h2 : c = '\\'
    · subst h2; decide
    · by_cases h3 : c = '\n'
      · subst h3; decide
      · by_cases h4 : c = '\r'
        · subst h4; decide
        · by_cases h5 : c = '\t'
          · subst h5; decide
          · simp [escapeChar, h1, h2, h3, h4, h5]
            exact fun h => h3 h.symm

theorem escapeStr_no_nl : ∀ s : List Char, '\n' ∉ escapeStr s := by
  intro s
  induction s with
  | nil => simp [escapeStr]
  | cons c cs ih =>
    simp only [escapeStr]
    intro h
    rcases List.mem_append.mp h with hm | hm
    · exact escapeChar_no_nl c hm
    · exact ih hm

theorem natDigits_no_nl (n : Nat) : '\n' ∉ natDigits n := by
  intro h
  have := natDigits_all_digits n '\n' h
  exact absurd this (by decide)

theorem intChars_no_nl (n : Int) : '\n' ∉ intChars n := by
  unfold intChars
  by_cases h : n < 0
  · rw [if_pos h]
    intro hm
    rcases List.mem_cons.mp hm with he | hm2
    · exact absurd he (by decide)
    · exact natDigits_no_nl _ hm2
  · rw [if_neg h]
    exact natDigits_no_nl _

theorem digit_facts (c : Char) (h : c.isDigit = true) :
    c ≠ 'n' ∧ c ≠ 't' ∧ c ≠ 'f' ∧ c ≠ '"' ∧ c ≠ '[' ∧ c ≠ '{' ∧ c ≠ '-' := by
  refine ⟨?_, ?_, ?_, ?_, ?_, ?_, ?_⟩ <;>
    (rintro rfl; exact absurd h (by decide))

theorem headset_facts (c : Char)
    (h : c = 'n' ∨ c = 't' ∨ c = 'f' ∨ c = '"' ∨ c = '[' ∨ c = '{' ∨ c = '-'
         ∨ c.isDigit = true) :
    c ≠ ']' ∧ c ≠ 'D' ∧ isPySpace c = false := by
  rcases h with rfl | rfl | rfl | rfl | rfl | rfl | rfl | hd
  · decide
  · decide
  · decide
  · decide
  · decide
  · decide
  · decide
  · refine ⟨?_, ?_, ?_⟩
    · rintro rfl; exact absurd hd (by decide)
    · rintro rfl; exact absurd hd (by decide)
    · have h1 : c ≠ ' ' := by rintro rfl; exact absurd hd (by decide)
      have h2 : c ≠ '\t' := by rintro rfl; exact absurd hd (by decide)
      have h3 : c ≠ '\n' := by rintro rfl; exact absurd hd (by decide)
      have h4 : c ≠ '\r' := by rintro rfl; exact absurd hd (by decide)
      have h5 : c ≠ Char.ofNat 11 := by rintro rfl; exact absurd hd (by decide)
      have h6 : c ≠ Char.ofNat 12 := by rintro rfl; exact absurd hd (by decide)
      simp [isPySpace, h1, h2, h3, h4, h5, h6]

theorem lastset_nonspace (c : Char)
    (h : c = 'l' ∨ c = 'e' ∨ c = '"' ∨ c = ']' ∨ c = '}' ∨ c.isDigit = true) :
    isPySpace c = false := by
  rcases h with rfl | rfl | rfl | rfl | rfl | hd
  · decide
  · decide
  · decide
  · decide
  · decide
  · have h1 : c ≠ ' ' := by rintro rfl; exact absurd hd (by decide)
    have h2 : c ≠ '\t' := by rintro rfl; exact absurd hd (by decide)
    have h3 : c ≠ '\n' := by rintro rfl; exact absurd hd (by decide)
    have h4 : c ≠ '\r' := by rintro rfl; exact absurd hd (by decide)
    have h5 : c ≠ Char.ofNat 11 := by rintro rfl; exact absurd hd (by decide)
    have h6 : c ≠ Char.ofNat 12 := by rintro rfl; exact absurd hd (by decide)
    simp [isPySpace, h1, h2, h3, h4, h5, h6]

theorem dumps_no_nl_aux : ∀ m : Nat,
    (∀ x : Json, sizeOf x ≤ m → '\n' ∉ dumpsJson x)
    ∧ (∀ ys : List Json, sizeOf ys ≤ m → '\n' ∉ dumpsSep ys)
    ∧ (∀ fs : List (List Char × Json), sizeOf fs ≤ m → '\n' ∉ dumpsFieldSep fs) := by
  intro m
  induction m using Nat.strong_induction_on with
  | _ m ih =>
    refine ⟨?_, ?_, ?_⟩
    · intro x hx hmem
      cases x with
      | null => exact absurd hmem (by decide)
      | bool b => cases b <;> exact absurd hmem (by decide)
      | int n => exact intChars_no_nl n hmem
      | str s =>
        have e1 := escapeStr_no_nl s
        simp +decide [dumpsJson, e1] at hmem
      | arr xs =>
        cases xs with
        | nil => simp +decide [dumpsJson, dumpsElems] at hmem
        | cons z zs =>
          have hsz := Json.arr.sizeOf_spec (z :: zs)
          have hsc := List.cons.sizeOf_spec z zs
          have h1 : '\n' ∉ dumpsJson z := (ih (sizeOf z) (by omega)).1 z (le_refl _)
          have h2 : '\n' ∉ dumpsSep zs := (ih (sizeOf zs) (by omega)).2.1 zs (le_refl _)
          simp +decide [dumpsJson, dumpsElems, h1, h2] at hmem
      | obj fs =>
        cases fs with
        | nil => simp +decide [dumpsJson, dumpsFields] at hmem
        | cons f fs2 =>
          obtain ⟨k, v⟩ := f
          have hsz := Json.obj.sizeOf_spec ((k, v) :: fs2)
          have hsc := List.cons.sizeOf_spec (k, v) fs2
          have hsp := Prod.mk.sizeOf_spec k v
          have h1 := escapeStr_no_nl k
          have h2 : '\n' ∉ dumpsJson v := (ih (sizeOf v) (by omega)).1 v (le_refl _)
          have h3 : '\n' ∉ dumpsFieldSep fs2 :=
            (ih (sizeOf fs2) (by omega)).2.2 fs2 (le_refl _)
          simp +decide [dumpsJson, dumpsFields, h1, h2, h3] at hmem
    · intro ys hys hmem
      cases ys with
      | nil => simp [dumpsSep] at hmem
      | cons y t =>
        have hsc := List.cons.sizeOf_spec y t
        have h1 : '\n' ∉ dumpsJson y := (ih (sizeOf y) (by omega)).1 y (le_refl _)
        have h2 : '\n' ∉ dumpsSep t := (ih (sizeOf t) (by omega)).2.1 t (le_refl _)
        simp +decide [dumpsSep, h1, h2] at hmem
    · intro fs hfs hmem
      cases fs with
      | nil => simp [dumpsFieldSep] at hmem
      | cons f fs2 =>
        obtain ⟨k, v⟩ := f
        have hsc := List.cons.sizeOf_spec (k, v) fs2
        have hsp := Prod.mk.sizeOf_spec k v
        have h1 := escapeStr_no_nl k
        have h2 : '\n' ∉ dumpsJson v := (ih (sizeOf v) (by omega)).1 v (le_refl _)
        have h3 : '\n' ∉ dumpsFieldSep fs2 := (ih (sizeOf fs2) (by omega)).2.2 fs2 (le_refl _)
        simp +decide [dumpsFieldSep, h1, h2, h3] at hmem

theorem dumps_no_nl (x : Json) : '\n' ∉ dumpsJson x :=
  (dumps_no_nl_aux (sizeOf x)).1 x (le_refl _)

theorem dumps_head (x : Json) : ∃ c cs, dumpsJson x = c :: cs ∧
    (c = 'n' ∨ c = 't' ∨ c = 'f' ∨ c = '"' ∨ c = '[' ∨ c = '{' ∨ c = '-'
     ∨ c.isDigit = true) := by
  cases x with
  | null => exact ⟨'n', ['u', 'l', 'l'], by decide, by decide⟩
  | bool b =>
    cases b with
    | true => exact ⟨'t', ['r', 'u', 'e'], by decide, by decide⟩
    | false => exact ⟨'f', ['a', 'l', 's', 'e'], by decide, by decide⟩
  | int n =>
    by_cases hn : n < 0
    · refine ⟨'-', natDigits (-n).toNat, ?_, by decide⟩
      simp only [dumpsJson, intChars]
      rw [if_pos hn]
    · obtain ⟨c, cs, hcs, hdig⟩ := natDigits_head n.toNat
      refine ⟨c, cs, ?_, by tauto⟩
      simp only [dumpsJson, intChars]
      rw [if_neg hn, hcs]
  | str s =>
    refine ⟨'"', escapeStr s ++ ['"'], ?_, by decide⟩
    simp [dumpsJson]
  | arr xs =>
    refine ⟨'[', dumpsElems xs ++ [']'], ?_, by decide⟩
    simp [dumpsJson]
  | obj fs =>
    refine ⟨'{', dumpsFields fs ++ ['}'], ?_, by decide⟩
    simp [dumpsJson]

theorem natDigits_last : ∀ n : Nat, ∃ c, (natDigits n).getLast? = some c ∧ c.isDigit = true := by
  intro n
  rw [natDigits]
  by_cases h : n < 10
  · rw [dif_pos h]
    exact ⟨Nat.digitChar n, rfl, digitChar_isDigit n h⟩
  · rw [dif_neg h]
    exact ⟨Nat.digitChar (n % 10), List.getLast?_concat _,
      digitChar_isDigit (n % 10) (Nat.mod_lt n (by omega))⟩

theorem dumps_last (x : Json) : ∃ c, (dumpsJson x).getLast? = some c ∧
    (c = 'l' ∨ c = 'e' ∨ c = '"' ∨ c = ']' ∨ c = '}' ∨ c.isDigit = true) := by
  cases x with
  | null => exact ⟨'l', by decide, by decide⟩
  | bool b =>
    cases b with
    | true => exact ⟨'e', by decide, by decide⟩
    | false => exact ⟨'e', by decide, by decide⟩
  | int n =>
    by_cases hn : n < 0
    · obtain ⟨c, hc, hdig⟩ := natDigits_last (-n).toNat
      refine ⟨c, ?_, by tauto⟩
      simp only [dumpsJson, intChars]
      rw [if_pos hn]
      obtain ⟨d, ds, hds, _⟩ := natDigits_head (-n).toNat
      rw [hds] at hc ⊢
      rw [List.getLast?_cons_cons]
      exact hc
    · obtain ⟨c, hc, hdig⟩ := natDigits_last n.toNat
      refine ⟨c, ?_, by tauto⟩
      simp only [dumpsJson, intChars]
      rw [if_neg hn]
      exact hc
  | str s =>
    refine ⟨'"', ?_, by decide⟩
    simp only [dumpsJson]
    exact List.getLast?_concat _
  | arr xs =>
    refine ⟨']', ?_, by decide⟩
    simp only [dumpsJson]
    exact List.getLast?_concat _
  | obj fs =>
    refine ⟨'}', ?_, by decide⟩
    simp only [dumpsJson]
    exact List.getLast?_concat _

theorem pyStrip_eq_self (l : List Char) (c1 : Char) (h1 : l.head? = some c1)
    (hs1 : isPySpace c1 = false) (c2 : Char) (h2 : l.getLast? = some c2)
    (hs2 : isPySpace c2 = false) : pyStrip l = l := by
  cases l with
  | nil => simp at h1
  | cons a as =>
    have ha : a = c1 := by simpa using h1
    subst ha
    have hl : pyLStrip (a :: as) = a :: as := by
      rw [pyLStrip, List.dropWhile_cons, if_neg (by simp [hs1])]
    rw [pyStrip, hl]
    have hrev : (a :: as).reverse.head? = some c2 := by
      rw [List.head?_reverse]
      exact h2
    cases hrev2 : (a :: as).reverse with
    | nil =>
      rw [hrev2] at hrev
      simp at hrev
    | cons b bs =>
      have hb : b = c2 := by
        rw [hrev2] at hrev
        simpa using hrev
      subst hb
      rw [pyRStrip, hrev2, List.dropWhile_cons, if_neg (by simp [hs2]), ← hrev2,
        List.reverse_reverse]

theorem pyStrip_dumps (x : Json) : pyStrip (dumpsJson x) = dumpsJson x := by
  obtain ⟨c, cs, hcs, hset⟩ := dumps_head x
  obtain ⟨c2, hc2, hlast⟩ := dumps_last x
  exact pyStrip_eq_self _ c (by rw [hcs]; rfl) (headset_facts c hset).2.2
    c2 hc2 (lastset_nonspace c2 hlast)

theorem dumps_ne_done (x : Json) : dumpsJson x ≠ pstr "[DONE]" := by
  intro h
  cases x with
  | null => exact absurd h (by decide)
  | bool b => cases b <;> exact absurd h (by decide)
  | int n =>
    by_cases hn : n < 0
    · simp only [dumpsJson, intChars] at h
      rw [if_pos hn, show pstr "[DONE]" = '[' :: 'D' :: ['O', 'N', 'E', ']'] from rfl] at h
      injection h with h1 _
      exact absurd h1 (by decide)
    · obtain ⟨c, cs, hcs, hdig⟩ := natDigits_head n.toNat
      simp only [dumpsJson, intChars] at h
      rw [if_neg hn, hcs,
        show pstr "[DONE]" = '[' :: 'D' :: ['O', 'N', 'E', ']'] from rfl] at h
      injection h with h1 _
      subst h1
      exact absurd hdig (by decide)
  | str s =>
    simp only [dumpsJson] at h
    rw [show pstr "[DONE]" = '[' :: 'D' :: ['O', 'N', 'E', ']'] from rfl] at h
    injection h with h1 _
    exact absurd h1 (by decide)
  | arr xs =>
    cases xs with
    | nil => exact absurd h (by decide)
    | cons z zs =>
      obtain ⟨d, ds, hds, hdset⟩ := dumps_head z
      simp only [dumpsJson, dumpsElems] at h
      rw [hds, show pstr "[DONE]" = '[' :: 'D' :: ['O', 'N', 'E', ']'] from rfl] at h
      simp only [List.cons_append, List.append_assoc] at h
      injection h with h1 h2
      injection h2 with h3 _
      exact absurd h3 ((headset_facts d hdset).2.1)
  | obj fs =>
    simp only [dumpsJson] at h
    rw [show pstr "[DONE]" = '[' :: 'D' :: ['O', 'N', 'E', ']'] from rfl] at h
    injection h with h1 _
    exact absurd h1 (by decide)

theorem splitNl_cons_nl (l : List Char) : splitNl ('\n' :: l) = [] :: splitNl l := by
  rw [splitNl.eq_def]
  simp

theorem splitNl_cons_other (c : Char) (l : List Char) (hc : ¬c = '\n') :
    splitNl (c :: l) =
      match splitNl l with
      | [] => [[c]]
      | h :: t => (c :: h) :: t := by
  rw [splitNl.eq_def]
  simp [hc]

theorem splitNl_append (a b : List Char) (ha : '\n' ∉ a) :
    splitNl (a ++ '\n' :: b) = a :: splitNl b := by
  induction a with
  | nil => rw [List.nil_append, splitNl_cons_nl]
  | cons c cs ih =>
    have hc : ¬(c = '\n') := fun h => ha (by simp [h])
    have hcs : '\n' ∉ cs := fun h => ha (by simp [h])
    rw [List.cons_append, splitNl_cons_other c _ hc, ih hcs]

theorem jweight_le_aux : ∀ m : Nat,
    (∀ x : Json, sizeOf x ≤ m → jweight x ≤ (dumpsJson x).length + 1)
    ∧ (∀ ys : List Json, sizeOf ys ≤ m → jweightSep ys ≤ (dumpsSep ys).length)
    ∧ (∀ fs : List (List Char × Json), sizeOf fs ≤ m →
        jweightFieldSep fs ≤ (dumpsFieldSep fs).length) := by
  intro m
  induction m using Nat.strong_induction_on with
  | _ m ih =>
    refine ⟨?_, ?_, ?_⟩
    · intro x hx
      cases x with
      | null => simp [jweight]
      | bool b => simp [jweight]
      | int n => simp [jweight]
      | str s => simp [jweight]
      | arr xs =>
        cases xs with
        | nil => simp [jweight]
        | cons z zs =>
          have hsz := Json.arr.sizeOf_spec (z :: zs)
          have hsc := List.cons.sizeOf_spec z zs
          have hz := (ih (sizeOf z) (by omega)).1 z (le_refl _)
          have hzs := (ih (sizeOf zs) (by omega)).2.1 zs (le_refl _)
          simp only [jweight, dumpsJson, dumpsElems, List.length_append, List.length_cons]
          omega
      | obj fs =>
        cases fs with
        | nil => simp [jweight]
        | cons f fs2 =>
          obtain ⟨k, v⟩ := f
          have hsz := Json.obj.sizeOf_spec ((k, v) :: fs2)
          have hsc := List.cons.sizeOf_spec (k, v) fs2
          have hsp := Prod.mk.sizeOf_spec k v
          have hv := (ih (sizeOf v) (by omega)).1 v (le_refl _)
          have hfs2 := (ih (sizeOf fs2) (by omega)).2.2 fs2 (le_refl _)
          simp only [jweight, dumpsJson, dumpsFields, List.length_append, List.length_cons]
          omega
    · intro ys hys
      cases ys with
      | nil => simp [jweightSep, dumpsSep]
      | cons y t =>
        have hsc := List.cons.sizeOf_spec y t
        have hy := (ih (sizeOf y) (by omega)).1 y (le_refl _)
        have ht := (ih (sizeOf t) (by omega)).2.1 t (le_refl _)
        simp only [jweightSep, dumpsSep, List.length_append, List.length_cons]
        omega
    · intro fs hfs
      cases fs with
      | nil => simp [jweightFieldSep, dumpsFieldSep]
      | cons f fs2 =>
        obtain ⟨k, v⟩ := f
        have hsc := List.cons.sizeOf_spec (k, v) fs2
        have hsp := Prod.mk.sizeOf_spec k v
        have hv := (ih (sizeOf v) (by omega)).1 v (le_refl _)
        have hfs2 := (ih (sizeOf fs2) (by omega)).2.2 fs2 (le_refl _)
        simp only [jweightFieldSep, dumpsFieldSep, List.length_append, List.length_cons]
        omega

theorem jweight_le (x : Json) : jweight x ≤ (dumpsJson x).length + 1 :=
  (jweight_le_aux (sizeOf x)).1 x (le_refl _)

theorem sep_head_delim (zs : List Json) (rest : List Char) :
    dumpsSep zs ++ ']' :: rest = [] ∨ ∃ d rs, dumpsSep zs ++ ']' :: rest = d :: rs
      ∧ (d = ',' ∨ d = ']' ∨ d = '}') := by
  cases zs with
  | nil => exact Or.inr ⟨']', rest, by simp [dumpsSep], Or.inr (Or.inl rfl)⟩
  | cons w t =>
    exact Or.inr ⟨',', ' ' :: (dumpsJson w ++ (dumpsSep t ++ ']' :: rest)),
      by simp [dumpsSep, List.append_assoc], Or.inl rfl⟩

theorem fieldsep_head_delim (fs : List (List Char × Json)) (rest : List Char) :
    dumpsFieldSep fs ++ '}' :: rest = [] ∨ ∃ d rs, dumpsFieldSep fs ++ '}' :: rest = d :: rs
      ∧ (d = ',' ∨ d = ']' ∨ d = '}') := by
  cases fs with
  | nil => exact Or.inr ⟨'}', rest, by simp [dumpsFieldSep], Or.inr (Or.inr rfl)⟩
  | cons f t =>
    obtain ⟨k, v⟩ := f
    exact Or.inr ⟨',', ' ' :: '"' :: (escapeStr k ++ ('"' :: ':' :: ' ' ::
        (dumpsJson v ++ (dumpsFieldSep t ++ '}' :: rest)))),
      by simp [dumpsFieldSep, List.append_assoc], Or.inl rfl⟩

theorem parse_dumps : ∀ fuel : Nat,
    (∀ (x : Json) (rest : List Char), jweight x ≤ fuel →
      (rest = [] ∨ ∃ d rs, rest = d :: rs ∧ (d = ',' ∨ d = ']' ∨ d = '}')) →
      parseVal fuel (dumpsJson x ++ rest) = some (x, rest))
    ∧ (∀ (ys acc : List Json) (rest : List Char), jweightSep ys + 1 ≤ fuel →
      parseArrTail fuel acc (dumpsSep ys ++ ']' :: rest)
        = some (.arr (acc.reverse ++ ys), rest))
    ∧ (∀ (fs acc : List (List Char × Json)) (rest : List Char),
        jweightFieldSep fs + 1 ≤ fuel →
      parseObjTail fuel acc (dumpsFieldSep fs ++ '}' :: rest)
        = some (.obj (acc.reverse ++ fs), rest)) := by
  intro fuel
  induction fuel using Nat.strong_induction_on with
  | _ fuel ih =>
    refine ⟨?_, ?_, ?_⟩
    · intro x rest hw hdelim
      obtain ⟨f, rfl⟩ : ∃ f, fuel = f + 1 :=
        ⟨fuel - 1, by have := jweight_pos x; omega⟩
      have hdelim_nodigit : rest = [] ∨ ∃ d rs, rest = d :: rs ∧ d.isDigit = false := by
        rcases hdelim with rfl | ⟨d, rs, rfl, hd⟩
        · exact Or.inl rfl
        · refine Or.inr ⟨d, rs, rfl, ?_⟩
          rcases hd with rfl | rfl | rfl <;> decide
      cases x with
      | null =>
        rw [show dumpsJson .null ++ rest = 'n' :: 'u' :: 'l' :: 'l' :: rest from rfl]
        simp +decide [parseVal, show pstr "ull" = ['u', 'l', 'l'] from rfl]
      | bool b =>
        cases b with
        | true =>
          rw [show dumpsJson (.bool true) ++ rest
              = 't' :: 'r' :: 'u' :: 'e' :: rest from rfl]
          simp +decide [parseVal, show pstr "rue" = ['r', 'u', 'e'] from rfl]
        | false =>
          rw [show dumpsJson (.bool false) ++ rest
              = 'f' :: 'a' :: 'l' :: 's' :: 'e' :: rest from rfl]
          simp +decide [parseVal, show pstr "alse" = ['a', 'l', 's', 'e'] from rfl]
      | int n =>
        by_cases hn : n < 0
        · have hexp : dumpsJson (.int n) ++ rest = '-' :: (natDigits (-n).toNat ++ rest) := by
            simp only [dumpsJson, intChars]
            rw [if_pos hn, List.cons_append]
          rw [hexp]
          have hrn := readNat_natDigits (-n).toNat rest hdelim_nodigit
          simp +decide [parseVal, hrn]
          omega
        · obtain ⟨c, cs, hcs, hdig⟩ := natDigits_head n.toNat
          have hfacts := digit_facts c hdig
          have hexp : dumpsJson (.int n) ++ rest = c :: (cs ++ rest) := by
            simp only [dumpsJson, intChars]
            rw [if_neg hn, hcs, List.cons_append]
          rw [hexp]
          have hrn := readNat_natDigits n.toNat rest hdelim_nodigit
          rw [hcs, List.cons_append] at hrn
          simp [parseVal, hfacts.1, hfacts.2.1, hfacts.2.2.1, hfacts.2.2.2.1,
            hfacts.2.2.2.2.1, hfacts.2.2.2.2.2.1, hfacts.2.2.2.2.2.2, hdig, hrn]
          omega
      | str s =>
        have hexp : dumpsJson (.str s) ++ rest = '"' :: (escapeStr s ++ '"' :: rest) := by
          simp [dumpsJson, List.append_assoc]
        rw [hexp]
        simp +decide [parseVal, readStr_escape]
      | arr xs =>
        cases xs with
        | nil =>
          rw [show dumpsJson (.arr []) ++ rest = '[' :: ']' :: rest from by
            simp [dumpsJson, dumpsElems]]
          simp +decide [parseVal]
        | cons z zs =>
          have hexp : dumpsJson (.arr (z :: zs)) ++ rest
              = '[' :: (dumpsJson z ++ (dumpsSep zs ++ ']' :: rest)) := by
            simp [dumpsJson, dumpsElems, List.append_assoc]
          rw [hexp]
          obtain ⟨c, cs, hcs, hset⟩ := dumps_head z
          have hcne : c ≠ ']' := (headset_facts c hset).1
          have hwz : jweight z ≤ f := by
            simp only [jweight] at hw
            omega
          have hwsep : jweightSep zs + 1 ≤ f := by
            have := jweight_pos z
            simp only [jweight] at hw
            omega
          have h1 := (ih f (by omega)).1 z (dumpsSep zs ++ ']' :: rest) hwz
            (sep_head_delim zs rest)
          have h2 := (ih f (by omega)).2.1 zs [z] rest hwsep
          simp +decide [parseVal, h1, h2]
          constructor
          · rw [hcs]
            simp [hcne]
          · intro hnil
            rw [hcs] at hnil
            exact absurd hnil (by simp)
      | obj fs =>
        cases fs with
        | nil =>
          rw [show dumpsJson (.obj []) ++ rest = '{' :: '}' :: rest from by
            simp [dumpsJson, dumpsFields]]
          simp +decide [parseVal]
        | cons fkv fs2 =>
          obtain ⟨k, v⟩ := fkv
          have hexp : dumpsJson (.obj ((k, v) :: fs2)) ++ rest
              = '{' :: '"' :: (escapeStr k ++ ('"' :: ':' :: ' ' ::
                  (dumpsJson v ++ (dumpsFieldSep fs2 ++ '}' :: rest)))) := by
            simp [dumpsJson, dumpsFields, List.append_assoc]
          rw [hexp]
          have hkey := readStr_escape k
            (':' :: ' ' :: (dumpsJson v ++ (dumpsFieldSep fs2 ++ '}' :: rest)))
          have hwv : jweight v ≤ f := by
            simp only [jweight] at hw
            omega
          have hwfs : jweightFieldSep fs2 + 1 ≤ f := by
            have := jweight_pos v
            simp only [jweight] at hw
            omega
          have h1 := (ih f (by omega)).1 v (dumpsFieldSep fs2 ++ '}' :: rest) hwv
            (fieldsep_head_delim fs2 rest)
          have h2 := (ih f (by omega)).2.2 fs2 [(k, v)] rest hwfs
          simp +decide [parseVal, hkey, h1, h2, show pstr ": " = [':', ' '] from rfl]
    · intro ys acc rest hw
      obtain ⟨f, rfl⟩ : ∃ f, fuel = f + 1 := ⟨fuel - 1, by omega⟩
      cases ys with
      | nil =>
        rw [show dumpsSep ([] : List Json) ++ ']' :: rest = ']' :: rest from by
          simp [dumpsSep]]
        simp +decide [parseArrTail]
      | cons y t =>
        have hexp : dumpsSep (y :: t) ++ ']' :: rest
            = ',' :: ' ' :: (dumpsJson y ++ (dumpsSep t ++ ']' :: rest)) := by
          simp [dumpsSep, List.append_assoc]
        rw [hexp]
        have hwy : jweight y ≤ f := by
          simp only [jweightSep] at hw
          omega
        have hwt : jweightSep t + 1 ≤ f := by
          have := jweight_pos y
          simp only [jweightSep] at hw
          omega
        have h1 := (ih f (by omega)).1 y (dumpsSep t ++ ']' :: rest) hwy
          (sep_head_delim t rest)
        have h2 := (ih f (by omega)).2.1 t (y :: acc) rest hwt
        simp +decide [parseArrTail, h1, h2]
    · intro fs acc rest hw
      obtain ⟨f, rfl⟩ : ∃ f, fuel = f + 1 := ⟨fuel - 1, by omega⟩
      cases fs with
      | nil =>
        rw [show dumpsFieldSep ([] : List (List Char × Json)) ++ '}' :: rest
            = '}' :: rest from by simp [dumpsFieldSep]]
        simp +decide [parseObjTail]
      | cons fkv fs2 =>
        obtain ⟨k, v⟩ := fkv
        have hexp : dumpsFieldSep ((k, v) :: fs2) ++ '}' :: rest
            = ',' :: ' ' :: '"' :: (escapeStr k ++ ('"' :: ':' :: ' ' ::
                (dumpsJson v ++ (dumpsFieldSep fs2 ++ '}' :: rest)))) := by
          simp [dumpsFieldSep, List.append_assoc]
        rw [hexp]
        have hkey := readStr_escape k
          (':' :: ' ' :: (dumpsJson v ++ (dumpsFieldSep fs2 ++ '}' :: rest)))
        have hwv : jweight v ≤ f := by
          simp only [jweightFieldSep] at hw
          omega
        have hwfs : jweightFieldSep fs2 + 1 ≤ f := by
          have := jweight_pos v
          simp only [jweightFieldSep] at hw
          omega
        have h1 := (ih f (by omega)).1 v (dumpsFieldSep fs2 ++ '}' :: rest) hwv
          (fieldsep_head_delim fs2 rest)
        have h2 := (ih f (by omega)).2.2 fs2 ((k, v) :: acc) rest hwfs
        simp +decide [parseObjTail, hkey, h1, h2, show pstr " \"" = [' ', '"'] from rfl,
          show pstr ": " = [':', ' '] from rfl]

theorem loads_dumps (x : Json) : loads (dumpsJson x) = some x := by
  have hb := jweight_le x
  have h := (parse_dumps (2 * (dumpsJson x).length + 2)).1 x [] (by omega) (Or.inl rfl)
  rw [List.append_nil] at h
  simp [loads, h]

theorem parse_sse_data_line (j : Json) (tl : List (List Char)) :
    parse_sse_stream ((pstr "data: " ++ dumpsJson j) :: tl) = j :: parse_sse_stream tl := by
  have hne : pstr "data: " ++ dumpsJson j ≠ [] :=
    List.append_ne_nil_of_left_ne_nil (by decide) _
  have hpre := isPrefixOf_append_self (pstr "data: ") (dumpsJson j)
  have hdrop : (pstr "data: " ++ dumpsJson j).drop 6 = dumpsJson j := by
    rw [show 6 = (pstr "data: ").length from rfl, List.drop_left]
  have hstrip := pyStrip_dumps j
  have hnd := dumps_ne_done j
  have hld := loads_dumps j
  simp [parse_sse_stream, hne, hpre, hdrop, hstrip, hnd, hld]

theorem parse_sse_blank_line (tl : List (List Char)) :
    parse_sse_stream ([] :: tl) = parse_sse_stream tl := by
  simp [parse_sse_stream]

theorem parse_sse_done_line (tl : List (List Char)) :
    parse_sse_stream (pstr "data: [DONE]" :: tl) = doneEvent :: parse_sse_stream tl := by
  simp +decide [parse_sse_stream]

/-- C8: feeding the concatenation of two formatted SSE events and the done
marker, split into its lines, through the SSE reader yields exactly the two
payloads followed by the done sentinel. -/
theorem sse_roundtrip (x y : Json) :
    parse_sse_stream (splitNl (format_sse_event x ++ format_sse_event y ++ format_sse_done))
      = [x, y, doneEvent] := by
  have hdx : '\n' ∉ pstr "data: " ++ dumpsJson x := by
    intro h
    rcases List.mem_append.mp h with h | h
    · exact absurd h (by decide)
    · exact dumps_no_nl x h
  have hdy : '\n' ∉ pstr "data: " ++ dumpsJson y := by
    intro h
    rcases List.mem_append.mp h with h | h
    · exact absurd h (by decide)
    · exact dumps_no_nl y h
  have hdd : '\n' ∉ pstr "data: [DONE]" := by decide
  have e1 : format_sse_event x ++ format_sse_event y ++ format_sse_done
      = (pstr "data: " ++ dumpsJson x) ++ '\n' :: ('\n' :: ((pstr "data: " ++ dumpsJson y)
          ++ '\n' :: ('\n' :: (pstr "data: [DONE]" ++ '\n' :: ('\n' :: ([] : List Char)))))) := by
    simp only [format_sse_event, format_sse_done,
      show pstr "\n\n" = ['\n', '\n'] from rfl,
      show (pstr "data: [DONE]\n\n" : List Char)
        = pstr "data: [DONE]" ++ ['\n', '\n'] from rfl,
      List.append_assoc, List.cons_append, List.nil_append]
  rw [e1, splitNl_append _ _ hdx, splitNl_cons_nl, splitNl_append _ _ hdy, splitNl_cons_nl,
    splitNl_append _ _ hdd, splitNl_cons_nl, show splitNl [] = [[]] from rfl]
  rw [parse_sse_data_line, parse_sse_blank_line, parse_sse_data_line, parse_sse_blank_line,
    parse_sse_done_line, parse_sse_blank_line, parse_sse_blank_line]
  rfl
